import Mathlib

/-!
Verification of the AVR backend instruction-selection and machine-code
encoding stage (AVRISelDAGToDAG.cpp and MCTargetDesc/AVRMCCodeEmitter.cpp).

The definitions below are a shallow embedding of the C++ source: machine
integers are modelled as Nat or Int with explicit truncation where the C++
performs an integral conversion, SelectionDAG nodes are modelled as closed
inductive types carrying exactly the data the embedded functions inspect,
and fallible matchers return Option (none is the no-match signal).
-/

namespace AVRB

/-! ## Data model shared by the selector and the encoder -/

/-- Memory value types the AVR selection code distinguishes
(getMemoryVT().getSimpleVT()). -/
inductive MVT where
  | i8
  | i16
  | otherVT
deriving DecidableEq, Repr

/-- The physical registers named by the embedded functions.  Every other
register is `gpr n`. -/
inductive Reg where
  | R27R26
  | R29R28
  | R31R30
  | SP
  | gpr (n : Nat)
deriving DecidableEq, Repr

/-- The machine opcodes named by the embedded functions.  Every other
opcode is `otherOp n`. -/
inductive Opcode where
  | LDRdPtrPd
  | LDRdPtrPi
  | LDWRdPtrPd
  | LDWRdPtrPi
  | LPMRdZPi
  | LPMWRdZPi
  | STPtrPdRr
  | STPtrPiRr
  | otherOp (n : Nat)
deriving DecidableEq, Repr

/-! ## AVRMCCodeEmitter.cpp -/

/-- AVRMCCodeEmitter::loadStorePostEncoder (AVRMCCodeEmitter.cpp, lines
65-88).  Sets the inconsistent bit (bit 12) when either of the first two
register operands is the X pointer pair R27R26, or the opcode is one of
the pre-decrement / post-increment load-store forms. -/
def loadStorePostEncoder (opcode : Opcode) (reg0 reg1 : Reg)
    (encodedValue : Nat) : Nat :=
  let isRegX : Bool := decide (reg0 = Reg.R27R26 ∨ reg1 = Reg.R27R26)
  let isPredec : Bool :=
    decide (opcode = Opcode.LDRdPtrPd ∨ opcode = Opcode.STPtrPdRr)
  let isPostinc : Bool :=
    decide (opcode = Opcode.LDRdPtrPi ∨ opcode = Opcode.STPtrPiRr)
  if isRegX || isPredec || isPostinc then
    encodedValue ||| (1 <<< 12)
  else
    encodedValue

/-- AVRMCCodeEmitter::encodeComplement (AVRMCCodeEmitter.cpp, lines
180-188).  The C++ computes (~0) - imm, that is (-1) - imm, in a signed
64-bit intermediate and returns it through the unsigned (32-bit) return
type, hence the reduction modulo 2^32. -/
def encodeComplement (imm : Int) : Nat :=
  ((-1 - imm) % (2 ^ 32)).toNat

/-- AVRMCCodeEmitter::emitByte: streams one byte (a C unsigned char). -/
def emitByte (c : Nat) : List Nat :=
  [c % 256]

/-- AVRMCCodeEmitter::emitWord (AVRMCCodeEmitter.cpp, lines 287-290):
low byte of the 16-bit word first, then the high byte. -/
def emitWord (word : Nat) : List Nat :=
  emitByte ((word &&& 0x00ff) >>> 0) ++ emitByte ((word &&& 0xff00) >>> 8)

/-- AVRMCCodeEmitter::emitWords (AVRMCCodeEmitter.cpp, lines 292-297):
the loop runs i = Count-1 down to 0, so the LAST list element (the
highest-indexed word) is emitted first. -/
def emitWords : List Nat → List Nat
  | [] => []
  | w :: ws => emitWords ws ++ emitWord w

/-- The 16-bit words of the 64-bit encoded value, as the reinterpret-cast
in AVRMCCodeEmitter::emitInstruction reads them on a little-endian host:
word i holds bits 16*i .. 16*i+15, so word 0 is the least significant. -/
def instWords (val : Nat) (wordCount : Nat) : List Nat :=
  (List.range wordCount).map (fun i => (val >>> (16 * i)) &&& 0xffff)

/-- AVRMCCodeEmitter::emitInstruction (AVRMCCodeEmitter.cpp, lines
299-305): splits the encoded value into Size / 2 sixteen-bit words and
hands them to emitWords. -/
def emitInstruction (val : Nat) (size : Nat) : List Nat :=
  emitWords (instWords val (size / 2))

/-- The MCExpr shapes AVRMCCodeEmitter::getExprOpValue distinguishes.
`target fixupKind constEval` is an AVRMCExpr whose evaluateAsConstant
either succeeds with a value (some) or fails (none). -/
inductive MCExprM where
  | binary (lhs rhs : MCExprM)
  | target (fixupKind : Nat) (constEval : Option Int)
  | symbolRef (sym : Nat)
  | constantK (value : Int)
  | unary (sub : MCExprM)
deriving DecidableEq, Repr

/-- A pending fixup: byte offset, the expression it references, and the
fixup kind. -/
structure FixupM where
  offset : Nat
  expr : MCExprM
  kind : Nat
deriving DecidableEq, Repr

/-- The tail of AVRMCCodeEmitter::getExprOpValue after the one-level
binary unwrap: handles a Target expression (inline the constant if it
folds, otherwise record a fixup and encode 0) and a SymbolRef (encode 0).
Any other kind trips the assert(Kind == MCExpr::SymbolRef), modelled as
none. -/
def getExprOpValueTail (e : MCExprM) (fixups : List FixupM) :
    Option (Nat × List FixupM) :=
  match e with
  | MCExprM.target fk ce =>
    match ce with
    | some result => some (((result % (2 ^ 32)).toNat), fixups)
    | none => some (0, fixups ++ [⟨0, MCExprM.target fk none, fk⟩])
  | MCExprM.symbolRef _ => some (0, fixups)
  | _ => none

/-- AVRMCCodeEmitter::getExprOpValue (AVRMCCodeEmitter.cpp, lines
235-260).  A Binary expression is replaced by its left-hand side before
any encoding decision is taken. -/
def getExprOpValue (e : MCExprM) (fixups : List FixupM) :
    Option (Nat × List FixupM) :=
  match e with
  | MCExprM.binary lhs _ => getExprOpValueTail lhs fixups
  | e => getExprOpValueTail e fixups

/-! ## Helper lemmas about the emitter -/

theorem emitWords_reverse_flatten (ws : List Nat) :
    emitWords ws = (ws.reverse.map emitWord).flatten := by
  induction ws with
  | nil => rfl
  | cons w ws ih =>
    simp [emitWords, ih]

theorem testBit_4096 (i : Nat) (h : i ≠ 12) : (4096 : Nat).testBit i = false := by
  have h4096 : (4096 : Nat) = 2 ^ 12 := by norm_num
  rw [h4096]
  exact Nat.testBit_two_pow_of_ne (fun hq => h hq.symm)

/-- The Bool condition guarding the inconsistent bit in
loadStorePostEncoder, exposed as a Prop. -/
def lsBit12Cond (opcode : Opcode) (reg0 reg1 : Reg) : Prop :=
  opcode = Opcode.LDRdPtrPd ∨ opcode = Opcode.STPtrPdRr ∨
  opcode = Opcode.LDRdPtrPi ∨ opcode = Opcode.STPtrPiRr ∨
  reg0 = Reg.R27R26 ∨ reg1 = Reg.R27R26

instance (opcode : Opcode) (reg0 reg1 : Reg) :
    Decidable (lsBit12Cond opcode reg0 reg1) := by
  unfold lsBit12Cond; infer_instance

theorem loadStorePostEncoder_eq_ite (opcode : Opcode) (reg0 reg1 : Reg)
    (e : Nat) :
    loadStorePostEncoder opcode reg0 reg1 e =
      if lsBit12Cond opcode reg0 reg1 then e ||| 4096 else e := by
  unfold loadStorePostEncoder lsBit12Cond
  rcases Decidable.em (reg0 = Reg.R27R26 ∨ reg1 = Reg.R27R26) with hx | hx <;>
    rcases Decidable.em
      (opcode = Opcode.LDRdPtrPd ∨ opcode = Opcode.STPtrPdRr) with hd | hd <;>
    rcases Decidable.em
      (opcode = Opcode.LDRdPtrPi ∨ opcode = Opcode.STPtrPiRr) with hi | hi <;>
    simp [hx, hd, hi]

theorem loadStorePostEncoder_cases (opcode : Opcode) (reg0 reg1 : Reg)
    (e : Nat) :
    loadStorePostEncoder opcode reg0 reg1 e = e ∨
      loadStorePostEncoder opcode reg0 reg1 e = e ||| 4096 := by
  rw [loadStorePostEncoder_eq_ite]
  split
  · right; rfl
  · left; rfl

theorem testBit_or_4096 (e : Nat) (i : Nat) :
    (e ||| 4096).testBit i = (e.testBit i || decide (i = 12)) := by
  rw [Nat.testBit_lor]
  by_cases h : i = 12
  · subst h
    rw [show Nat.testBit 4096 12 = true from by decide]
    simp
  · rw [testBit_4096 i h]; simp [h]

/-- C9: the load/store post-encoder changes no bit other than bit 12: its
result is the input or the input with bit 12 ORed in, every bit other
than 12 is unchanged, and no set bit of the input is ever cleared. -/
theorem postEncoder_only_bit12 (opcode : Opcode) (reg0 reg1 : Reg)
    (e : Nat) :
    (loadStorePostEncoder opcode reg0 reg1 e = e ∨
       loadStorePostEncoder opcode reg0 reg1 e = e ||| (1 <<< 12)) ∧
    (∀ i, i ≠ 12 →
       (loadStorePostEncoder opcode reg0 reg1 e).testBit i = e.testBit i) ∧
    (∀ i, e.testBit i = true →
       (loadStorePostEncoder opcode reg0 reg1 e).testBit i = true) := by
  have h4096 : (1 <<< 12 : Nat) = 4096 := by decide
  refine ⟨by rw [h4096]; exact loadStorePostEncoder_cases opcode reg0 reg1 e,
          ?_, ?_⟩
  · intro i hi
    rcases loadStorePostEncoder_cases opcode reg0 reg1 e with h | h <;> rw [h]
    rw [testBit_or_4096]
    simp [hi]
  · intro i hi
    rcases loadStorePostEncoder_cases opcode reg0 reg1 e with h | h <;> rw [h]
    · exact hi
    · rw [testBit_or_4096, hi]; simp

/-- C5: for the pre-decrement or post-increment load-store opcodes, or
when either of the first two register operands is the X pointer pair, the
returned encoding has bit 12 set; in particular a pre-decrement opcode
always yields bit 12 = 1 whatever the registers are; a direct form (no
pre-decrement, no post-increment, no X register) leaves bit 12 at the
value the bit-field table supplied, so it stays 0 when the table gave 0. -/
theorem postEncoder_bit12_rule (opcode : Opcode) (reg0 reg1 : Reg)
    (e : Nat) :
    (lsBit12Cond opcode reg0 reg1 →
       (loadStorePostEncoder opcode reg0 reg1 e).testBit 12 = true) ∧
    ((opcode = Opcode.LDRdPtrPd ∨ opcode = Opcode.STPtrPdRr) →
       (loadStorePostEncoder opcode reg0 reg1 e).testBit 12 = true) ∧
    ((¬ lsBit12Cond opcode reg0 reg1 ∧ e.testBit 12 = false) →
       (loadStorePostEncoder opcode reg0 reg1 e).testBit 12 = false) := by
  refine ⟨?_, ?_, ?_⟩
  · intro h
    rw [loadStorePostEncoder_eq_ite, if_pos h, testBit_or_4096]
    simp
  · intro h
    have hc : lsBit12Cond opcode reg0 reg1 := by
      unfold lsBit12Cond; tauto
    rw [loadStorePostEncoder_eq_ite, if_pos hc, testBit_or_4096]
    simp
  · rintro ⟨h, he⟩
    rw [loadStorePostEncoder_eq_ite, if_neg h]
    exact he

/-- C6: the one complement encoder returns, through its unsigned 32-bit
return type, exactly (-1) - N: its result is the unique value in
[0, 2^32) congruent to (-1) - N modulo 2^32, for every N, including
N = 0 and negative N. -/
theorem encodeComplement_spec (N : Int) :
    ((encodeComplement N : Int) % (2 ^ 32) = (-1 - N) % (2 ^ 32)) ∧
    (0 ≤ (encodeComplement N : Int) ∧ (encodeComplement N : Int) < 2 ^ 32) ∧
    encodeComplement 0 = 4294967295 ∧ encodeComplement (-300) = 299 := by
  have hpos : (0 : Int) < 2 ^ 32 := by norm_num
  have hnn : 0 ≤ (-1 - N) % (2 ^ 32) := Int.emod_nonneg _ (by norm_num)
  have hlt : (-1 - N) % (2 ^ 32) < 2 ^ 32 := Int.emod_lt_of_pos _ hpos
  have hcast : (encodeComplement N : Int) = (-1 - N) % (2 ^ 32) := by
    unfold encodeComplement
    exact Int.toNat_of_nonneg hnn
  refine ⟨?_, ⟨?_, ?_⟩, by decide, by decide⟩
  · rw [hcast, Int.emod_emod_of_dvd _ dvd_rfl]
  · rw [hcast]; exact hnn
  · rw [hcast]; exact hlt

/-- C10: on a Binary symbolic expression, getExprOpValue encodes only the
left-hand sub-expression: the produced field value and fixup list do not
depend on the right-hand side, they are exactly what the shared tail
computes on the left operand alone, and when the left operand is an
AVRMCExpr (the Target kind) the result agrees with running getExprOpValue
on the left operand directly. -/
theorem getExprOpValue_binary_lhs_only (lhs rhs rhs2 : MCExprM)
    (fixups : List FixupM) :
    (getExprOpValue (MCExprM.binary lhs rhs) fixups =
       getExprOpValue (MCExprM.binary lhs rhs2) fixups) ∧
    (getExprOpValue (MCExprM.binary lhs rhs) fixups =
       getExprOpValueTail lhs fixups) ∧
    (∀ fk ce sym,
       getExprOpValue (MCExprM.binary (MCExprM.target fk ce) rhs) fixups =
         getExprOpValue (MCExprM.target fk ce) fixups ∧
       getExprOpValue (MCExprM.binary (MCExprM.symbolRef sym) rhs) fixups =
         getExprOpValue (MCExprM.symbolRef sym) fixups) := by
  exact ⟨rfl, rfl, fun fk ce sym => ⟨rfl, rfl⟩⟩

/-- C4 counterexample: with encoded value 1 and size 4 (two words, word 0
= 0x0001 is the least significant), the emitter streams the bytes of word
1 first: the output is 00 00 01 00, not the least-significant-word-first
stream 01 00 00 00. -/
theorem emitInstruction_msw_first_cex :
    emitInstruction 1 4 = [0, 0, 1, 0] ∧
    instWords 1 2 = [1, 0] ∧
    emitInstruction 1 4 ≠ emitWord 1 ++ emitWord 0 := by
  refine ⟨by decide, by decide, by decide⟩

theorem and_ff00_shiftRight (w : Nat) :
    (w &&& 0xff00) >>> 8 = (w / 2 ^ 8) % 2 ^ 8 := by
  have hdiv : w / 2 ^ 8 = w >>> 8 := (Nat.shiftRight_eq_div_pow w 8).symm
  rw [hdiv]
  apply Nat.eq_of_testBit_eq
  intro i
  rw [Nat.testBit_shiftRight, Nat.testBit_and, Nat.testBit_mod_two_pow,
    Nat.testBit_shiftRight]
  have hmask : (0xff00 : Nat).testBit (8 + i) = decide (i < 8) := by
    by_cases h : i < 8
    · interval_cases i <;> decide
    · have h16 : (0xff00 : Nat) < 2 ^ (8 + i) := by
        calc (0xff00 : Nat) < 2 ^ 16 := by norm_num
        _ ≤ 2 ^ (8 + i) := Nat.pow_le_pow_right (by norm_num) (by omega)
      rw [Nat.testBit_lt_two_pow h16]
      simp [h]
  rw [hmask]
  cases hw : w.testBit (8 + i) <;> simp

/-- C4 amended: for an instruction of size 2*n bytes the emitter streams
the n sixteen-bit words of the encoded value from the MOST significant
(word n-1, bits 16(n-1)..16n-1) down to the least significant (word 0),
and within each word the low byte is emitted before the high byte. -/
theorem emitInstruction_word_order (val n : Nat) :
    (emitInstruction val (2 * n) =
       ((instWords val n).reverse.map emitWord).flatten) ∧
    (∀ w, emitWord w = [w % 2 ^ 8, (w / 2 ^ 8) % 2 ^ 8]) ∧
    (instWords val n =
       (List.range n).map (fun i => (val / 2 ^ (16 * i)) % 2 ^ 16)) := by
  refine ⟨?_, ?_, ?_⟩
  · unfold emitInstruction
    rw [Nat.mul_div_cancel_left n (by norm_num)]
    exact emitWords_reverse_flatten _
  · intro w
    unfold emitWord emitByte
    have h1 : (w &&& 0x00ff) >>> 0 = w % 2 ^ 8 := by
      rw [Nat.shiftRight_zero]
      simpa using Nat.and_pow_two_sub_one_eq_mod w 8
    have hlt1 : w % 2 ^ 8 < 256 := Nat.mod_lt _ (by norm_num)
    have hlt2 : (w / 2 ^ 8) % 2 ^ 8 < 256 := Nat.mod_lt _ (by norm_num)
    rw [h1, and_ff00_shiftRight, Nat.mod_eq_of_lt hlt1, Nat.mod_eq_of_lt hlt2]
    rfl
  · unfold instWords
    apply List.map_congr_left
    intro i _
    rw [Nat.shiftRight_eq_div_pow]
    simpa using Nat.and_pow_two_sub_one_eq_mod (val / 2 ^ (16 * i)) 16

/-! ## AVRISelDAGToDAG.cpp: the addressing-mode matcher -/

/-- The first operand of an ADD / SUB address node, as selectAddr
inspects it: either an ISD::FrameIndex node or anything else (a register
value). -/
inductive BaseOp where
  | fiNode (fi : Int)
  | regNode (id : Nat)
deriving DecidableEq, Repr

/-- The second operand of an ADD / SUB address node: a ConstantSDNode
(carrying the value getZExtValue returns) or anything else. -/
inductive RhsOp where
  | cst (zext : Nat)
  | noncst (id : Nat)
deriving DecidableEq, Repr

/-- The address-node shapes selectAddr distinguishes.  `orConst`
stands for the extra shapes isBaseWithConstantOffset recognizes as
base+constant (an OR whose constant operand has no bits in common with
the base); it passes the opcode guard and is not ISD::SUB, so its
constant is not negated. -/
inductive AddrN where
  | frameIndex (fi : Int)
  | add (b : BaseOp) (rhs : RhsOp)
  | sub (b : BaseOp) (rhs : RhsOp)
  | orConst (b : BaseOp) (rhs : RhsOp)
  | otherNode (id : Nat)
deriving DecidableEq, Repr

/-- The Base value selectAddr reports: a TargetFrameIndex or the original
base operand. -/
inductive MatchBase where
  | tfi (fi : Int)
  | node (id : Nat)
deriving DecidableEq, Repr

/-- A successful selectAddr match: base, displacement and the value type
the displacement constant is created with (MVT::i8 or MVT::i16). -/
structure AddrMatch where
  base : MatchBase
  disp : Int
  dispVT : MVT
deriving DecidableEq, Repr

/-- The C cast `(int)RHS->getZExtValue()`: truncation of the unsigned
64-bit value to a signed 32-bit integer. -/
def int32ofNat (z : Nat) : Int :=
  ((z % 2 ^ 32 : Nat) : Int) - (if z % 2 ^ 32 < 2 ^ 31 then 0 else 2 ^ 32)

/-- llvm isUInt<6> applied to an int: the int is converted to uint64_t
(reduction modulo 2^64, negative values wrap high) and compared with 64. -/
def isUInt6 (x : Int) : Bool :=
  decide (x % 2 ^ 64 < 64)

/-- Normalization of the folded constant: `RHSC = (int)getZExtValue()`,
negated when the node opcode is ISD::SUB. -/
def normOffset (isSub : Bool) (z : Nat) : Int :=
  if isSub then -(int32ofNat z) else int32ofNat z

/-- The ADD/SUB/base-with-constant-offset arm of
AVRDAGToDAGISel::selectAddr (AVRISelDAGToDAG.cpp, lines 98-134).
`isSub` records whether the node opcode is ISD::SUB, in which case the
constant is negated. -/
def selectAddrOffset (vt : MVT) (isSub : Bool) (b : BaseOp) (rhs : RhsOp) :
    Option AddrMatch :=
  match rhs with
  | RhsOp.noncst _ => none
  | RhsOp.cst z =>
    let rhsc : Int := normOffset isSub z
    match b with
    | BaseOp.fiNode fi => some ⟨MatchBase.tfi fi, rhsc, MVT.i16⟩
    | BaseOp.regNode id =>
      if (decide (vt = MVT.i8) && isUInt6 rhsc) ||
         (decide (vt = MVT.i16) && decide (0 ≤ rhsc) && decide (rhsc < 63)) then
        some ⟨MatchBase.node id, rhsc, MVT.i8⟩
      else
        none

/-- AVRDAGToDAGISel::selectAddr (AVRISelDAGToDAG.cpp, lines 76-137).
`vt` is the memory value type of the memory node the address feeds. -/
def selectAddr (vt : MVT) (n : AddrN) : Option AddrMatch :=
  match n with
  | AddrN.frameIndex fi => some ⟨MatchBase.tfi fi, 0, MVT.i8⟩
  | AddrN.add b rhs => selectAddrOffset vt false b rhs
  | AddrN.sub b rhs => selectAddrOffset vt true b rhs
  | AddrN.orConst b rhs => selectAddrOffset vt false b rhs
  | AddrN.otherNode _ => none

/-! ## AVRISelDAGToDAG.cpp: indexed load matchers -/

/-- Load extension kinds (ISD::LoadExtType). -/
inductive ExtKind where
  | nonExt
  | extLoad
  | sExtLoad
  | zExtLoad
deriving DecidableEq, Repr

/-- Indexed addressing modes (ISD::MemIndexedMode). -/
inductive IndexedMode where
  | unindexed
  | preInc
  | preDec
  | postInc
  | postDec
deriving DecidableEq, Repr

/-- The fields of a LoadSDNode that selectIndexedLoad and
selectIndexedProgMemLoad inspect; offset is the sign-extended value of
the constant offset operand. -/
structure LoadNode where
  ext : ExtKind
  am : IndexedMode
  memVT : MVT
  offset : Int
deriving DecidableEq, Repr

/-- AVRDAGToDAGISel::selectIndexedLoad (AVRISelDAGToDAG.cpp, lines
139-178), reduced to the opcode choice: none is the no-match (null)
result. -/
def selectIndexedLoad (ld : LoadNode) : Option Opcode :=
  if ld.ext ≠ ExtKind.nonExt ∨
     (ld.am ≠ IndexedMode.postInc ∧ ld.am ≠ IndexedMode.preDec) then
    none
  else
    let isPre : Bool := decide (ld.am = IndexedMode.preDec)
    match ld.memVT with
    | MVT.i8 =>
      if (!isPre && ld.offset != 1) || (isPre && ld.offset != -1) then
        none
      else
        some (if isPre then Opcode.LDRdPtrPd else Opcode.LDRdPtrPi)
    | MVT.i16 =>
      if (!isPre && ld.offset != 2) || (isPre && ld.offset != -2) then
        none
      else
        some (if isPre then Opcode.LDWRdPtrPd else Opcode.LDWRdPtrPi)
    | MVT.otherVT => none

/-- AVRDAGToDAGISel::selectIndexedProgMemLoad (AVRISelDAGToDAG.cpp, lines
180-213).  The C++ returns an unsigned opcode with 0 as the no-match
signal; none models 0. -/
def selectIndexedProgMemLoad (ld : LoadNode) : Option Opcode :=
  if ld.ext ≠ ExtKind.nonExt ∨ ld.am ≠ IndexedMode.postInc then
    none
  else
    match ld.memVT with
    | MVT.i8 =>
      if ld.offset != 1 then none else some Opcode.LPMRdZPi
    | MVT.i16 =>
      if ld.offset != 2 then none else some Opcode.LPMWRdZPi
    | MVT.otherVT => none

/-! ## Theorems about the addressing-mode matcher -/

theorem int32ofNat_bounds (z : Nat) :
    -(2 ^ 31) ≤ int32ofNat z ∧ int32ofNat z < 2 ^ 31 := by
  unfold int32ofNat
  have h : z % 2 ^ 32 < 2 ^ 32 := Nat.mod_lt _ (by norm_num)
  split <;> omega

theorem isUInt6_iff (x : Int) (h1 : -(2 ^ 63) ≤ x) (h2 : x < 2 ^ 64) :
    isUInt6 x = true ↔ 0 ≤ x ∧ x < 64 := by
  unfold isUInt6
  rw [decide_eq_true_iff]
  omega

theorem selectAddrOffset_reg (vt : MVT) (isSub : Bool) (z : Nat)
    (id : Nat) :
    selectAddrOffset vt isSub (BaseOp.regNode id) (RhsOp.cst z) =
      if (vt = MVT.i8 ∧ 0 ≤ normOffset isSub z ∧ normOffset isSub z ≤ 63) ∨
         (vt = MVT.i16 ∧ 0 ≤ normOffset isSub z ∧ normOffset isSub z < 63)
      then some ⟨MatchBase.node id, normOffset isSub z, MVT.i8⟩
      else none := by
  have hb := int32ofNat_bounds z
  have hx1 : -(2 ^ 63) ≤ normOffset isSub z := by
    unfold normOffset; split <;> omega
  have hx2 : normOffset isSub z < 2 ^ 64 := by
    unfold normOffset; split <;> omega
  have hiso := isUInt6_iff (normOffset isSub z) hx1 hx2
  unfold selectAddrOffset
  rcases vt with _ | _ | _
  · by_cases hc : 0 ≤ normOffset isSub z ∧ normOffset isSub z ≤ 63
    · have ht : isUInt6 (normOffset isSub z) = true :=
        hiso.mpr ⟨hc.1, by omega⟩
      simp [ht, hc]
    · have hf : isUInt6 (normOffset isSub z) = false := by
        rw [Bool.eq_false_iff]
        intro h
        exact hc ⟨(hiso.mp h).1, by have := (hiso.mp h).2; omega⟩
      simp [hf, hc]
  · by_cases hc : 0 ≤ normOffset isSub z ∧ normOffset isSub z < 63
    · simp [hc, hc.1, hc.2]
    · simp only [Decidable.not_and_iff_or_not] at hc
      rcases hc with hc | hc <;> simp [hc]
  · simp

/-- C1: the selectAddr matching rules.  A bare frame-index address
matches with displacement 0.  A frame-index base plus or minus a folded
constant matches unconditionally (subtraction negates the constant) with
the offset carried as an MVT::i16 displacement.  A non-frame base plus or
minus a constant matches exactly when the access width is 8 bits and the
normalized offset lies in [0, 63], or the width is 16 bits and it lies in
[0, 63); in particular every negative offset on a non-frame base is
rejected.  A non-constant right operand and every other address shape are
no-match. -/
theorem selectAddr_rules (vt : MVT) (z : Nat) (fi : Int)
    (rid oid nid : Nat) :
    (selectAddr vt (AddrN.frameIndex fi) =
       some ⟨MatchBase.tfi fi, 0, MVT.i8⟩) ∧
    (selectAddr vt (AddrN.add (BaseOp.fiNode fi) (RhsOp.cst z)) =
       some ⟨MatchBase.tfi fi, int32ofNat z, MVT.i16⟩) ∧
    (selectAddr vt (AddrN.sub (BaseOp.fiNode fi) (RhsOp.cst z)) =
       some ⟨MatchBase.tfi fi, -(int32ofNat z), MVT.i16⟩) ∧
    (selectAddr vt (AddrN.add (BaseOp.regNode rid) (RhsOp.cst z)) =
       if (vt = MVT.i8 ∧ 0 ≤ int32ofNat z ∧ int32ofNat z ≤ 63) ∨
          (vt = MVT.i16 ∧ 0 ≤ int32ofNat z ∧ int32ofNat z < 63)
       then some ⟨MatchBase.node rid, int32ofNat z, MVT.i8⟩
       else none) ∧
    (selectAddr vt (AddrN.sub (BaseOp.regNode rid) (RhsOp.cst z)) =
       if (vt = MVT.i8 ∧ 0 ≤ -int32ofNat z ∧ -int32ofNat z ≤ 63) ∨
          (vt = MVT.i16 ∧ 0 ≤ -int32ofNat z ∧ -int32ofNat z < 63)
       then some ⟨MatchBase.node rid, -(int32ofNat z), MVT.i8⟩
       else none) ∧
    (selectAddr vt (AddrN.add (BaseOp.regNode rid) (RhsOp.noncst nid)) =
       none) ∧
    (selectAddr vt (AddrN.sub (BaseOp.fiNode fi) (RhsOp.noncst nid)) =
       none) ∧
    (selectAddr vt (AddrN.otherNode oid) = none) := by
  refine ⟨rfl, rfl, rfl, ?_, ?_, rfl, rfl, rfl⟩
  · have h := selectAddrOffset_reg vt false z rid
    simpa [selectAddr, normOffset] using h
  · have h := selectAddrOffset_reg vt true z rid
    simpa [selectAddr, normOffset] using h

/-- C2: selectIndexedLoad matches exactly the non-extending loads in
post-increment or pre-decrement mode whose constant offset equals the
access width in bytes with the sign of the direction: +1 and -1 for 8-bit
loads, +2 and -2 for 16-bit loads; every other load is no-match (null),
and the four successful cases pick the four indexed opcodes. -/
theorem selectIndexedLoad_rule (ld : LoadNode) :
    ((selectIndexedLoad ld).isSome = true ↔
       ld.ext = ExtKind.nonExt ∧
       ((ld.am = IndexedMode.postInc ∧ ld.memVT = MVT.i8 ∧ ld.offset = 1) ∨
        (ld.am = IndexedMode.preDec ∧ ld.memVT = MVT.i8 ∧ ld.offset = -1) ∨
        (ld.am = IndexedMode.postInc ∧ ld.memVT = MVT.i16 ∧ ld.offset = 2) ∨
        (ld.am = IndexedMode.preDec ∧ ld.memVT = MVT.i16 ∧
          ld.offset = -2))) ∧
    (selectIndexedLoad ⟨ExtKind.nonExt, IndexedMode.postInc, MVT.i8, 1⟩ =
       some Opcode.LDRdPtrPi) ∧
    (selectIndexedLoad ⟨ExtKind.nonExt, IndexedMode.preDec, MVT.i8, -1⟩ =
       some Opcode.LDRdPtrPd) ∧
    (selectIndexedLoad ⟨ExtKind.nonExt, IndexedMode.postInc, MVT.i16, 2⟩ =
       some Opcode.LDWRdPtrPi) ∧
    (selectIndexedLoad ⟨ExtKind.nonExt, IndexedMode.preDec, MVT.i16, -2⟩ =
       some Opcode.LDWRdPtrPd) := by
  refine ⟨?_, by decide, by decide, by decide, by decide⟩
  obtain ⟨ext, am, vt, off⟩ := ld
  rcases ext <;> rcases am <;> rcases vt <;>
    simp [selectIndexedLoad]

/-- C3: selectIndexedProgMemLoad returns an opcode exactly for
non-extending post-increment loads whose offset equals the access width
in bytes (1 for 8-bit, 2 for 16-bit); pre-decrement mode is always
no-match whatever the offset is. -/
theorem selectIndexedProgMemLoad_rule (ld : LoadNode) :
    ((selectIndexedProgMemLoad ld).isSome = true ↔
       ld.ext = ExtKind.nonExt ∧ ld.am = IndexedMode.postInc ∧
       ((ld.memVT = MVT.i8 ∧ ld.offset = 1) ∨
        (ld.memVT = MVT.i16 ∧ ld.offset = 2))) ∧
    (∀ ext vt off,
       selectIndexedProgMemLoad ⟨ext, IndexedMode.preDec, vt, off⟩ =
         none) ∧
    (selectIndexedProgMemLoad
       ⟨ExtKind.nonExt, IndexedMode.postInc, MVT.i8, 1⟩ =
         some Opcode.LPMRdZPi) ∧
    (selectIndexedProgMemLoad
       ⟨ExtKind.nonExt, IndexedMode.postInc, MVT.i16, 2⟩ =
         some Opcode.LPMWRdZPi) := by
  refine ⟨?_, ?_, by decide, by decide⟩
  · obtain ⟨ext, am, vt, off⟩ := ld
    rcases ext <;> rcases am <;> rcases vt <;>
      simp [selectIndexedProgMemLoad]
  · intro ext vt off
    rcases ext <;> rcases vt <;> simp [selectIndexedProgMemLoad]

/-! ## AVRISelDAGToDAG.cpp: the inline-assembly operand legalizer

The flag-word accessors below embed the InlineAsm helpers of
llvm/IR/InlineAsm.h, the external interface selectInlineAsm calls: the
kind lives in the low 3 bits, the register count in bits 3..15, a
register class (stored plus 1, 0 meaning none) or a matched-operand index
in bits 16..30, and bit 31 marks a use tied to an earlier definition. -/

def Kind_RegUse : Nat := 1

def Kind_RegDef : Nat := 2

def Kind_RegDefEarlyClobber : Nat := 3

def Kind_Clobber : Nat := 4

def Kind_Imm : Nat := 5

def Kind_Mem : Nat := 6

def Flag_MatchingOperand : Nat := 0x80000000

def getKind (flag : Nat) : Nat := flag &&& 7

def getNumOperandRegisters (flag : Nat) : Nat := (flag &&& 0xffff) >>> 3

def isUseOperandTiedToDef (flag : Nat) : Bool :=
  decide (flag &&& Flag_MatchingOperand ≠ 0)

def tiedDefIdx (flag : Nat) : Nat := (flag &&& 0x7fffffff) >>> 16

def hasRegClassConstraint (flag : Nat) : Bool :=
  decide (flag &&& Flag_MatchingOperand = 0) && decide (flag >>> 16 ≠ 0)

def regClassOf (flag : Nat) : Nat := (flag >>> 16) - 1

def getFlagWord (kind numOps : Nat) : Nat := kind ||| (numOps <<< 3)

def getFlagWordForMatchingOp (flag idx : Nat) : Nat :=
  flag ||| Flag_MatchingOperand ||| (idx <<< 16)

def getFlagWordForRegClass (flag rc : Nat) : Nat :=
  flag ||| ((rc + 1) <<< 16)

/-- InlineAsm::Op_FirstOperand: the first four operands of an inline-asm
node (chain, asm string, metadata, extra info) are copied untouched. -/
def Op_FirstOperand : Nat := 4

/-- Register class ids for the two classes selectInlineAsm names
(generated enum values; only their distinctness matters here). -/
def GPR8RegClassID : Nat := 0

def GPR8QuadRegClassID : Nat := 1

/-- Sub-register indices AVR::qsub_0 .. AVR::qsub_3 of the quad class
(generated enum values; only their distinctness matters here). -/
def qsub_0 : Nat := 0

def qsub_1 : Nat := 1

def qsub_2 : Nat := 2

def qsub_3 : Nat := 3

/-- The SDValues the Kind_RegUse rewriting of selectInlineAsm builds. -/
inductive AsmVal where
  | operand (i : Nat)
  | valueOf (v : AsmVal) (idx : Nat)
  | copyFromReg (chain : AsmVal) (reg : Nat) (glue : AsmVal)
  | copyToReg (chain : AsmVal) (reg : Nat) (v : AsmVal) (glue : AsmVal)
  | register (r : Nat)
  | quadNode (v0 v1 v2 v3 : AsmVal)
  | noVal
deriving DecidableEq, Repr

/-- One operand of a REG_SEQUENCE machine node: a target constant or a
value. -/
inductive SeqOp where
  | imm (n : Nat)
  | val (v : AsmVal)
deriving DecidableEq, Repr

/-- AVRDAGToDAGISel::createGPR8QuadNode (AVRISelDAGToDAG.cpp, lines
495-506): builds a REG_SEQUENCE machine node over the quad register
class from four values. -/
def createGPR8QuadNode (v0 v1 v2 v3 : AsmVal) : AsmVal :=
  AsmVal.quadNode v0 v1 v2 v3

/-- The operand list of the REG_SEQUENCE node createGPR8QuadNode builds:
the quad register class constant, then each value paired with its
sub-register slot index (AVRISelDAGToDAG.cpp, line 504). -/
def regSeqOperands : AsmVal → List SeqOp
  | AsmVal.quadNode v0 v1 v2 v3 =>
      [SeqOp.imm GPR8QuadRegClassID,
       SeqOp.val v0, SeqOp.imm qsub_0,
       SeqOp.val v1, SeqOp.imm qsub_1,
       SeqOp.val v2, SeqOp.imm qsub_2,
       SeqOp.val v3, SeqOp.imm qsub_3]
  | _ => []

/-- The Kind_RegUse arm of AVRDAGToDAGISel::selectInlineAsm
(AVRISelDAGToDAG.cpp, lines 444-464): T0 reads Reg0 and T1 reads Reg1
(glued after T0), and the composite is built as
createGPR8QuadNode(T0, T1, T1, T1) - the second value fills the two
unused slots. -/
def regUseAssemble (chain : AsmVal) (reg0 reg1 : Nat) : AsmVal :=
  let t0 := AsmVal.copyFromReg chain reg0 (AsmVal.valueOf chain 1)
  let t1 := AsmVal.copyFromReg chain reg1 (AsmVal.valueOf t0 1)
  createGPR8QuadNode t0 t1 t1 t1

/-- The operand shapes the selectInlineAsm scan distinguishes: a
ConstantSDNode (flag or immediate word), a RegisterSDNode, or any other
value. -/
inductive AsmOp where
  | constant (flag : Nat)
  | regOp (r : Nat)
  | generic (id : Nat)
deriving DecidableEq, Repr

/-- The mutable state of the selectInlineAsm scan: the output operand
list, the per-register-group OpChanged vector, the Changed flag, and the
next fresh virtual register (MachineRegisterInfo::createVirtualRegister
is modelled as a counter). -/
structure ScanState where
  out : List AsmOp
  opChanged : List Bool
  changed : Bool
  nextVR : Nat
deriving DecidableEq, Repr

/-- The operand loop of AVRDAGToDAGISel::selectInlineAsm
(AVRISelDAGToDAG.cpp, lines 365-482), one call per loop iteration at
index i.  Each iteration first copies the operand, skips the four fixed
operands, decodes a constant flag word, skips an immediate pair, records
OpChanged for register groups, and rewrites a two-register group of the
GPR8 class (or one tied to an already-changed group): the flag word is
replaced (register count 1, quad class or same tied index), the fresh
composite register is pushed in place of the group, Changed is set, and
the scan resumes at i+5 as in the source (i += 4 plus the loop
increment).  The SDValues built inside the substitution (the copies and
the reassigned glue) are modelled by regUseAssemble separately; the
replacement operand here keeps only the fresh register number. -/
def scanStep (ops : List AsmOp) (e : Nat) (i : Nat) (s : ScanState) :
    ScanState :=
  if _h : i < e then
    let op := ops.getD i (AsmOp.generic 0)
    let s1 : ScanState := { s with out := s.out ++ [op] }
    if i < Op_FirstOperand then
      scanStep ops e (i + 1) s1
    else
      match op with
      | AsmOp.constant flag =>
        if getKind flag = Kind_Imm then
          scanStep ops e (i + 2)
            { s1 with out := s1.out ++ [ops.getD (i + 1) (AsmOp.generic 0)] }
        else
          let numRegs := getNumOperandRegisters flag
          let s2 : ScanState :=
            if numRegs ≠ 0 then
              { s1 with opChanged := s1.opChanged ++ [false] }
            else s1
          let isTied : Bool :=
            s2.changed && isUseOperandTiedToDef flag &&
              s2.opChanged.getD (tiedDefIdx flag) false
          if getKind flag ≠ Kind_RegUse ∧ getKind flag ≠ Kind_RegDef ∧
             getKind flag ≠ Kind_RegDefEarlyClobber then
            scanStep ops e (i + 1) s2
          else if (isTied = false ∧
                   (hasRegClassConstraint flag = false ∨
                    regClassOf flag ≠ GPR8RegClassID)) ∨ numRegs ≠ 2 then
            scanStep ops e (i + 1) s2
          else
            let flag1 := getFlagWord (getKind flag) 1
            let newFlag :=
              if isTied then getFlagWordForMatchingOp flag1 (tiedDefIdx flag)
              else getFlagWordForRegClass flag1 GPR8QuadRegClassID
            scanStep ops e (i + 5)
              { out := s2.out.dropLast ++
                  [AsmOp.constant newFlag, AsmOp.regOp s2.nextVR],
                opChanged := s2.opChanged.dropLast ++ [true],
                changed := true,
                nextVR := s2.nextVR + 1 }
      | _ => scanStep ops e (i + 1) s1
  else s
termination_by e - i
decreasing_by all_goals omega

/-- The inline-asm node as the legalizer sees it: its operand list and
whether the last operand is a glue value. -/
structure AsmNodeIn where
  ops : List AsmOp
  glued : Bool
deriving DecidableEq, Repr

/-- AVRDAGToDAGISel::selectInlineAsm (AVRISelDAGToDAG.cpp, lines
345-493): run the scan over all operands but the trailing glue, append
the glue back, and build a replacement INLINEASM node only when at least
one substitution occurred; otherwise return null (none). -/
def selectInlineAsm (n : AsmNodeIn) (vr0 : Nat) : Option (List AsmOp) :=
  let numOps := n.ops.length
  let e := if n.glued then numOps - 1 else numOps
  let s := scanStep n.ops e 0 ⟨[], [], false, vr0⟩
  let out :=
    if n.glued then s.out ++ [n.ops.getD (numOps - 1) (AsmOp.generic 0)]
    else s.out
  if s.changed then some out else none

/-- A flag word that can trigger a substitution on its own (without being
tied to an earlier changed group): a register use / def / def-early-
clobber group of exactly two registers constrained to the GPR8 class. -/
def isPairCandidate (flag : Nat) : Prop :=
  (getKind flag = Kind_RegUse ∨ getKind flag = Kind_RegDef ∨
   getKind flag = Kind_RegDefEarlyClobber) ∧
  getNumOperandRegisters flag = 2 ∧
  hasRegClassConstraint flag = true ∧
  regClassOf flag = GPR8RegClassID

instance (flag : Nat) : Decidable (isPairCandidate flag) := by
  unfold isPairCandidate; infer_instance

/-- C7: the Kind_RegUse rewriting assembles the 4-slot composite with
slot 0 holding the value read from the first register and slots 1, 2 and
3 all holding the value read from the second register, as the
REG_SEQUENCE operand list shows slot by slot. -/
theorem regUseAssemble_slots (chain : AsmVal) (r0 r1 : Nat) :
    ∃ v0 v1 : AsmVal,
      (∃ g, v0 = AsmVal.copyFromReg chain r0 g) ∧
      (∃ g, v1 = AsmVal.copyFromReg chain r1 g) ∧
      regUseAssemble chain r0 r1 = createGPR8QuadNode v0 v1 v1 v1 ∧
      regSeqOperands (regUseAssemble chain r0 r1) =
        [SeqOp.imm GPR8QuadRegClassID,
         SeqOp.val v0, SeqOp.imm qsub_0,
         SeqOp.val v1, SeqOp.imm qsub_1,
         SeqOp.val v1, SeqOp.imm qsub_2,
         SeqOp.val v1, SeqOp.imm qsub_3] := by
  refine ⟨AsmVal.copyFromReg chain r0 (AsmVal.valueOf chain 1),
    AsmVal.copyFromReg chain r1
      (AsmVal.valueOf
        (AsmVal.copyFromReg chain r0 (AsmVal.valueOf chain 1)) 1),
    ⟨_, rfl⟩, ⟨_, rfl⟩, rfl, rfl⟩

theorem getD_constant_mem {l : List AsmOp} {i : Nat} {flag : Nat}
    (h : l.getD i (AsmOp.generic 0) = AsmOp.constant flag) :
    AsmOp.constant flag ∈ l := by
  induction l generalizing i with
  | nil => cases i <;> simp [List.getD] at h
  | cons a t ih =>
    cases i with
    | zero =>
      rw [List.getD_cons_zero] at h
      rw [h.symm]
      exact List.mem_cons_self a t
    | succ j =>
      rw [List.getD_cons_succ] at h
      exact List.mem_cons_of_mem a (ih h)

/-- When no operand of the list carries a two-register GPR8 flag word,
the scan never reaches the substitution branch, so the Changed flag stays
false from any index and any state that starts with it false. -/
theorem scanStep_changed_false (ops : List AsmOp) (e : Nat)
    (hno : ∀ f, AsmOp.constant f ∈ ops → ¬ isPairCandidate f) :
    ∀ i s, s.changed = false → (scanStep ops e i s).changed = false := by
  have main : ∀ k i s, e - i ≤ k → s.changed = false →
      (scanStep ops e i s).changed = false := by
    intro k
    induction k with
    | zero =>
      intro i s hk hs
      rw [scanStep, dif_neg (show ¬ i < e by omega)]
      exact hs
    | succ k ihk =>
      intro i s hk hs
      by_cases hlt : i < e
      · rw [scanStep, dif_pos hlt]
        dsimp only
        by_cases hfirst : i < Op_FirstOperand
        · rw [if_pos hfirst]
          exact ihk _ _ (by omega) hs
        · rw [if_neg hfirst]
          rcases hop : ops.getD i (AsmOp.generic 0) with flag | r | id
          · dsimp only
            by_cases hkimm : getKind flag = Kind_Imm
            · rw [if_pos hkimm]
              exact ihk _ _ (by omega) hs
            · rw [if_neg hkimm]
              by_cases hfilter : getKind flag ≠ Kind_RegUse ∧
                  getKind flag ≠ Kind_RegDef ∧
                  getKind flag ≠ Kind_RegDefEarlyClobber
              · by_cases hnr : getNumOperandRegisters flag ≠ 0 <;>
                  [rw [if_pos hnr]; rw [if_neg hnr]] <;>
                  rw [if_pos hfilter] <;>
                  exact ihk _ _ (by omega) hs
              · have hkinds : getKind flag = Kind_RegUse ∨
                    getKind flag = Kind_RegDef ∨
                    getKind flag = Kind_RegDefEarlyClobber := by
                  by_contra hK
                  push_neg at hK
                  exact hfilter ⟨hK.1, hK.2.1, hK.2.2⟩
                by_cases hnr : getNumOperandRegisters flag ≠ 0 <;>
                    [rw [if_pos hnr]; rw [if_neg hnr]] <;>
                  rw [if_neg hfilter] <;>
                  dsimp only <;>
                  rw [hs] <;>
                  simp only [Bool.false_and, eq_self_iff_true, true_and] <;>
                  by_cases hfin : (hasRegClassConstraint flag = false ∨
                      regClassOf flag ≠ GPR8RegClassID) ∨
                      getNumOperandRegisters flag ≠ 2
                · rw [if_pos hfin]
                  exact ihk _ _ (by omega) rfl
                · rw [if_neg hfin]
                  exfalso
                  push_neg at hfin
                  have hrct : hasRegClassConstraint flag = true := by
                    cases hb : hasRegClassConstraint flag
                    · exact absurd hb hfin.1.1
                    · rfl
                  exact hno flag (getD_constant_mem hop)
                    ⟨hkinds, hfin.2, hrct, hfin.1.2⟩
                · rw [if_pos hfin]
                  exact ihk _ _ (by omega) rfl
                · exfalso
                  push_neg at hfin hnr
                  omega
          · dsimp only
            exact ihk _ _ (by omega) hs
          · dsimp only
            exact ihk _ _ (by omega) hs
      · rw [scanStep, dif_neg hlt]
        exact hs
  intro i s hs
  exact main (e - i) i s (Nat.le_refl _) hs

/-- C8: the legalizer returns a replacement operand list exactly when the
scan set the Changed flag, that is when at least one two-register
substitution occurred; and when no operand carries a flag word of a
two-register GPR8 group the scan cannot substitute anything, the result
is none (the null no-match signal) and the caller reuses the original
node as-is. -/
theorem selectInlineAsm_changed_rule (n : AsmNodeIn) (vr0 : Nat) :
    (selectInlineAsm n vr0 = none ↔
       (scanStep n.ops (if n.glued then n.ops.length - 1 else n.ops.length)
           0 ⟨[], [], false, vr0⟩).changed = false) ∧
    ((∀ f, AsmOp.constant f ∈ n.ops → ¬ isPairCandidate f) →
       selectInlineAsm n vr0 = none) := by
  constructor
  · unfold selectInlineAsm
    dsimp only
    cases hc : (scanStep n.ops
        (if n.glued then n.ops.length - 1 else n.ops.length)
        0 ⟨[], [], false, vr0⟩).changed <;> simp [hc]
  · intro hno
    have hchanged :=
      scanStep_changed_false n.ops
        (if n.glued then n.ops.length - 1 else n.ops.length) hno 0
        ⟨[], [], false, vr0⟩ rfl
    unfold selectInlineAsm
    dsimp only
    simp [hchanged]

end AVRB
